import Mathlib

/-!
Verification development for the uniai-client repository.

The development shallowly embeds the page-range parser (`ParsePageRange`),
the NDJSON streaming loop (`Client.stream`), the concurrent page scheduler
of `uniaiCmd`, and the render-output path construction (`RenderPdfPage`),
and proves the specified properties about them.

Strings are handled on the underlying character lists so that all
definitions are executable and all concrete facts are decidable.
Go `int` values are modelled as `Int` (overflow is irrelevant for the
properties at hand).
-/

namespace UniAI

/-! ## Page-range parser (internal/cli, `ParsePageRange`) -/

/-- Accumulator pass of Go's `strconv.Atoi` over a run of decimal digits. -/
def digitsToNat : List Char → Nat → Nat
  | [], acc => acc
  | c :: rest, acc => digitsToNat rest (acc * 10 + (c.toNat - '0'.toNat))

/-- Model of Go `strconv.Atoi`: an optional sign followed by a non-empty
run of decimal digits; anything else is an error (`none`). -/
def atoi (cs : List Char) : Option Int :=
  match cs with
  | '-' :: rest =>
      if rest ≠ [] ∧ rest.all Char.isDigit then some (-(digitsToNat rest 0 : Int)) else none
  | '+' :: rest =>
      if rest ≠ [] ∧ rest.all Char.isDigit then some ((digitsToNat rest 0 : Int)) else none
  | _ =>
      if cs ≠ [] ∧ cs.all Char.isDigit then some ((digitsToNat cs 0 : Int)) else none

/-- Model of Go `strings.Contains` for a single-character separator. -/
def containsC (sep : Char) : List Char → Bool
  | [] => false
  | c :: rest => c = sep || containsC sep rest

/-- Model of Go `strings.Split` for a single-character separator:
always returns at least one (possibly empty) part. -/
def splitOnChar (sep : Char) : List Char → List (List Char)
  | [] => [[]]
  | c :: rest =>
    match splitOnChar sep rest with
    | [] => [[]]
    | h :: t => if c = sep then [] :: h :: t else (c :: h) :: t

/-- Iteration count of the Go loop `for i := start; i <= end; i++`:
the loop body runs `(e + 1 - s).toNat` times, appending `s`, `s+1`, .... -/
def rangeListAux : Nat → Int → List Int
  | 0, _ => []
  | n + 1, s => s :: rangeListAux n (s + 1)

/-- The Go loop `for i := start; i <= end; i++ { pageNumbers = append(pageNumbers, i) }`. -/
def rangeList (s e : Int) : List Int :=
  rangeListAux (e + 1 - s).toNat s

/-- Outcome of `ParsePageRange`: a page list, a parse error message, or a
runtime panic (Go index-out-of-range). -/
inductive PRResult where
  | ok (pages : List Int)
  | error (msg : String)
  | panic
  deriving DecidableEq, Repr

/-- Rebuild a `String` from its character list. -/
def listToString (cs : List Char) : String := String.mk cs

/-- Go slice element assignment `l[i] = v`; out-of-bounds is a panic (`none`). -/
def setAt (l : List Int) (i : Nat) (v : Int) : Option (List Int) :=
  if i < l.length then some (l.set i v) else none

/-- The comma branch loop of `ParsePageRange`:
`for i, r := range ranges { pageNumbers[i], err = strconv.Atoi(r); ... }`.
The `Atoi` result is computed first, then the write to `pageNumbers[i]`
happens (panicking when out of range) before `err` is checked. -/
def commaLoop : List (List Char) → List Int → Nat → PRResult
  | [], acc, _ => PRResult.ok acc
  | r :: rest, acc, i =>
    match setAt acc i ((atoi r).getD 0) with
    | none => PRResult.panic
    | some acc' =>
      match atoi r with
      | none => PRResult.error ("invalid page number: " ++ listToString r)
      | some _ => commaLoop rest acc' (i + 1)

/-- Core of `ParsePageRange` over the character list of the input string,
mirroring the Go control flow: empty input returns an empty list; a dash
branch runs when the input contains `-`; a comma branch runs when the
input contains `,`, reassigning `pageNumbers` to `make([]int, 0, len(ranges))`
(length zero) before indexing into it. -/
def parsePageRangeCore (cs : List Char) : PRResult :=
  if cs = [] then PRResult.ok []
  else
    let step1 : PRResult :=
      if containsC '-' cs then
        let parts := splitOnChar '-' cs
        if parts.length ≠ 2 then
          PRResult.error ("invalid page range format: " ++ listToString cs)
        else
          match atoi (parts.getD 0 []) with
          | none => PRResult.error ("invalid start page: " ++ listToString (parts.getD 0 []))
          | some s =>
            match atoi (parts.getD 1 []) with
            | none => PRResult.error ("invalid end page: " ++ listToString (parts.getD 1 []))
            | some e => PRResult.ok (rangeList s e)
      else PRResult.ok []
    match step1 with
    | PRResult.ok pageNumbers =>
      if containsC ',' cs then
        commaLoop (splitOnChar ',' cs) [] 0
      else PRResult.ok pageNumbers
    | e => e

/-- `ParsePageRange` from `internal/cli`. -/
def ParsePageRange (pageRange : String) : PRResult :=
  parsePageRangeCore pageRange.data

/-- Specification-side description of the ascending sequence `[a, a+1, ..., b]`. -/
def ascendingSeq (a b : Int) : List Int :=
  (List.range (b + 1 - a).toNat).map (fun i : Nat => a + (i : Int))

/-- The caller in `uniaiCmd` (lines 71-76): an empty parsed page list is
expanded to all pages `1..numPages`. -/
def effectivePages (pageNumbers : List Int) (numPages : Nat) : List Int :=
  if pageNumbers.length = 0 then rangeList 1 numPages else pageNumbers

/-! ## Streaming NDJSON loop (pkg/uniai, `Client.stream`) -/

/-- One scanned line of the NDJSON response body, abstracted by the outcome
of decoding it: `errField = none` means `json.Unmarshal` into the probe
struct fails (invalid JSON); `errField = some e` means it succeeds and the
`error` field decodes to `e` (`""` when absent). `payload` stands for the
raw bytes handed to the per-line callback. -/
structure NDLine (α : Type) where
  errField : Option String
  payload : α
  deriving DecidableEq, Repr

/-- Terminal outcome of the `stream` scan loop. -/
inductive StreamResult (ε : Type) where
  | ok
  | unmarshalErr
  | errorField (msg : String)
  | statusErr (code : Nat)
  | handlerErr (e : ε)
  deriving DecidableEq, Repr

/-- The scan loop of `Client.stream`: per line, decode the error probe
(failure aborts with an unmarshal error); a non-empty `error` field aborts
with that message; then an HTTP status `>= 400` aborts with a `StatusError`;
otherwise the callback `fn` runs on the line and a callback error aborts
with it. The second component records the payloads `fn` was invoked on, in
order. An exhausted body returns `nil`. -/
def streamRun {α ε : Type} (statusCode : Nat) (fn : α → Option ε) :
    List (NDLine α) → StreamResult ε × List α
  | [] => (StreamResult.ok, [])
  | l :: rest =>
    match l.errField with
    | none => (StreamResult.unmarshalErr, [])
    | some e =>
      if e ≠ "" then (StreamResult.errorField e, [])
      else if 400 ≤ statusCode then (StreamResult.statusErr statusCode, [])
      else
        match fn l.payload with
        | some err => (StreamResult.handlerErr err, [l.payload])
        | none =>
          let r := streamRun statusCode fn rest
          (r.1, l.payload :: r.2)

/-! ## Concurrent page scheduler (cmd/uniai.go, `uniaiCmd`) -/

/-- Write a result slot; the callers guarantee the index is in bounds
(the Go code writes `renderedPages[pageNum-1]` only after the range check
`1 <= pageNum <= numPages` on a slice of length `numPages`). -/
def setSlot : List (Option Nat) → Nat → Nat → List (Option Nat)
  | [], _, _ => []
  | _ :: rest, 0, v => some v :: rest
  | s :: rest, i + 1, v => s :: setSlot rest i v

/-- Read a result slot (`none` when out of bounds or never written). -/
def getSlot : List (Option Nat) → Nat → Option Nat
  | [], _ => none
  | s :: _, 0 => s
  | _ :: rest, i + 1 => getSlot rest i

/-- One iteration of the dispatch loop of `uniaiCmd`: a page outside
`[1, totalPages]` is skipped with a warning; a successful render writes
the slot at `pageNum - 1`; a failed render leaves the slot empty. -/
def scheduleStep (totalPages : Nat) (renderOk : Nat → Bool)
    (slots : List (Option Nat)) (p : Nat) : List (Option Nat) :=
  if p < 1 ∨ totalPages < p then slots
  else if renderOk p then setSlot slots (p - 1) p
  else slots

/-- The whole rendering phase of `uniaiCmd`: fold the dispatch loop over
the requested pages, starting from `renderedPages := make([]renderedPage,
numPages)` (all slots empty). Parallel and sequential mode write the same
slots, since slot `p - 1` is written only by page `p`. -/
def schedule (totalPages : Nat) (requested : List Nat) (renderOk : Nat → Bool) :
    List (Option Nat) :=
  requested.foldl (scheduleStep totalPages renderOk) (List.replicate totalPages none)

/-! ## Output paths (internal/cli `RenderPdfPage`, cmd/uniai.go) -/

/-- Output path built by `RenderPdfPage`:
`outputFilePath := outputDir + fmt.Sprintf("/page_%d.jpg", pageNumber)`. -/
def renderOutputPath (outputDir : String) (pageNumber : Nat) : String :=
  outputDir ++ "/page_" ++ toString pageNumber ++ ".jpg"

/-- Model of `filepath.Join` on clean, non-empty components. -/
def joinPath (a b : String) : String := a ++ "/" ++ b

/-- The per-PDF subdirectory of `uniaiCmd`:
`outDir := filepath.Join(outputDir, dirName)`. -/
def outDirOf (outputDir dirName : String) : String := joinPath outputDir dirName

/-- Path at which the parallel branch persists page `n`:
`cli.RenderPdfPage(pageNum, page, outDir)` (cmd/uniai.go line 122). -/
def parallelRenderPath (outputDir dirName : String) (n : Nat) : String :=
  renderOutputPath (outDirOf outputDir dirName) n

/-- Path at which the sequential branch persists page `n`:
`cli.RenderPdfPage(pageNum, page, outputDir)` (cmd/uniai.go line 141),
passing the root output directory, not the per-PDF subdirectory. -/
def sequentialRenderPath (outputDir dirName : String) (n : Nat) : String :=
  renderOutputPath outputDir n

/-- Modelled from the spec: "Persisted layout: rendered images under
`<output>/<pdf-basename>/page_<N>.jpg`" (spec section 6). -/
def specPersistedImagePath (outputDir dirName : String) (n : Nat) : String :=
  outputDir ++ "/" ++ dirName ++ "/page_" ++ toString n ++ ".jpg"

/-! ## Concurrency structure of the parallel dispatch loop -/

/-- Capacity of the admission gate: `sem = make(chan struct{}, 3)`. -/
def concurrencyLimit : Nat := 3

/-- Abstract state of the parallel rendering phase: pages not yet examined
by the dispatch loop, render goroutines started but not yet finished,
total goroutines dispatched, goroutines finished (semaphore slot released
and `wg.Done` run), and whether `wg.Wait()` has returned. -/
structure SchedState where
  pending : List Nat
  running : Nat
  dispatched : Nat
  completed : Nat
  returned : Bool
  deriving DecidableEq, Repr

/-- Interleaving semantics of the parallel branch of `uniaiCmd`:
an out-of-range page is skipped without touching the gate; a dispatch
first acquires a semaphore slot (blocking while `running` equals the
capacity) and then starts the goroutine; a running goroutine may finish
at any time, releasing its slot regardless of render success or failure
(both releases are deferred); `wg.Wait()` returns only once every
dispatched goroutine has finished. -/
inductive SchedStep (totalPages : Nat) : SchedState → SchedState → Prop
  | skip {p rest r d c} : (p < 1 ∨ totalPages < p) →
      SchedStep totalPages ⟨p :: rest, r, d, c, false⟩ ⟨rest, r, d, c, false⟩
  | dispatch {p rest r d c} : ¬(p < 1 ∨ totalPages < p) → r < concurrencyLimit →
      SchedStep totalPages ⟨p :: rest, r, d, c, false⟩ ⟨rest, r + 1, d + 1, c, false⟩
  | finish {q r d c} :
      SchedStep totalPages ⟨q, r + 1, d, c, false⟩ ⟨q, r, d, c + 1, false⟩
  | ret {d c} :
      SchedStep totalPages ⟨[], 0, d, c, false⟩ ⟨[], 0, d, c, true⟩

/-- States reachable from the start of the rendering phase for a given
requested page list. -/
def SchedReachable (totalPages : Nat) (pages : List Nat) (s : SchedState) : Prop :=
  Relation.ReflTransGen (SchedStep totalPages) ⟨pages, 0, 0, 0, false⟩ s

end UniAI

namespace UniAI

/-! ## Helper lemmas about the parser -/

theorem containsC_append (sep : Char) (xs ys : List Char) :
    containsC sep (xs ++ ys) = (containsC sep xs || containsC sep ys) := by
  induction xs with
  | nil => simp [containsC]
  | cons c t ih => simp [containsC, ih, Bool.or_assoc]

theorem containsC_ne_nil {sep : Char} {cs : List Char} (h : containsC sep cs = true) :
    cs ≠ [] := by
  intro hnil
  subst hnil
  simp [containsC] at h

theorem splitOnChar_not_contains {sep : Char} {cs : List Char}
    (h : containsC sep cs = false) : splitOnChar sep cs = [cs] := by
  induction cs with
  | nil => simp [splitOnChar]
  | cons c t ih =>
    simp only [containsC, Bool.or_eq_false_iff, decide_eq_false_iff_not] at h
    simp [splitOnChar, ih h.2, h.1]

theorem splitOnChar_two_parts {sep : Char} {s1 s2 : List Char}
    (h1 : containsC sep s1 = false) (h2 : containsC sep s2 = false) :
    splitOnChar sep (s1 ++ sep :: s2) = [s1, s2] := by
  induction s1 with
  | nil => simp [splitOnChar, splitOnChar_not_contains h2]
  | cons c t ih =>
    simp only [containsC, Bool.or_eq_false_iff, decide_eq_false_iff_not] at h1
    simp [splitOnChar, ih h1.2, h1.1]

theorem containsC_mid (sep : Char) (s1 s2 : List Char) :
    containsC sep (s1 ++ sep :: s2) = true := by
  simp [containsC_append, containsC]

theorem rangeListAux_eq (n : Nat) :
    ∀ s : Int, rangeListAux n s = (List.range n).map (fun i : Nat => s + (i : Int)) := by
  induction n with
  | zero => intro s; simp [rangeListAux]
  | succ n ih =>
    intro s
    rw [List.range_succ_eq_map, List.map_cons, List.map_map]
    simp only [rangeListAux]
    congr 1
    · simp
    · rw [ih (s + 1)]
      refine List.map_congr_left ?_
      intro i _
      simp only [Function.comp_apply]
      push_cast
      ring

theorem rangeList_eq_ascendingSeq (a b : Int) : rangeList a b = ascendingSeq a b := by
  unfold rangeList ascendingSeq
  exact rangeListAux_eq _ a

theorem list_length_two {α : Type} {l : List α} (h : l.length = 2) :
    ∃ p q, l = [p, q] := by
  match l, h with
  | [p, q], _ => exact ⟨p, q, rfl⟩

/-! ## Claims about the page-range parser -/

/-- C1: the claim says a valid comma-expression such as "1,2,3" parses to
[1,2,3] without error or panic. In fact the comma branch reassigns
`pageNumbers` to a length-zero slice (`make([]int, 0, len(ranges))`) and
then writes `pageNumbers[i]`, so the first write already indexes out of
range: `ParsePageRange "1,2,3"` panics. -/
theorem c1_comma_expression_panics : ParsePageRange "1,2,3" = PRResult.panic := by
  decide

/-- C2 counterexample: the claim says the malformed input "abc" yields a
parse error and never a silent empty result; in fact `ParsePageRange "abc"`
falls through both branches and returns an empty page list with no error. -/
theorem c2_abc_counterexample : ParsePageRange "abc" = PRResult.ok [] := by
  decide

/-- C2 amended: among the named malformed inputs, "1-" and "1-2-3" yield a
parse error naming the offending substring and do not panic, while "abc"
(containing neither separator) returns an empty result with no error and
no panic. -/
theorem c2_malformed_inputs :
    ParsePageRange "1-" = PRResult.error "invalid end page: "
    ∧ ParsePageRange "1-2-3" = PRResult.error "invalid page range format: 1-2-3"
    ∧ ParsePageRange "abc" = PRResult.ok [] := by
  refine ⟨by decide, by decide, by decide⟩

/-- C7: a dash-expression whose split on `-` is exactly two integer
substrings `a`,`b` (the whole expression containing no comma) parses to
the ascending sequence `[a, a+1, ..., b]` with no error; a dash-containing
expression splitting into more or fewer than two parts errors naming the
whole expression, and a non-integer part errors naming that part. -/
theorem c7_dash_expressions :
    (∀ (s1 s2 : List Char) (a b : Int),
        containsC '-' s1 = false → containsC '-' s2 = false →
        containsC ',' (s1 ++ '-' :: s2) = false →
        atoi s1 = some a → atoi s2 = some b → a ≤ b →
        parsePageRangeCore (s1 ++ '-' :: s2) = PRResult.ok (ascendingSeq a b))
    ∧ (∀ cs : List Char, containsC '-' cs = true →
        (splitOnChar '-' cs).length ≠ 2 →
        parsePageRangeCore cs =
          PRResult.error ("invalid page range format: " ++ listToString cs))
    ∧ (∀ cs : List Char, containsC '-' cs = true →
        (splitOnChar '-' cs).length = 2 →
        atoi ((splitOnChar '-' cs).getD 0 []) = none →
        parsePageRangeCore cs =
          PRResult.error ("invalid start page: " ++ listToString ((splitOnChar '-' cs).getD 0 [])))
    ∧ (∀ (cs : List Char) (a : Int), containsC '-' cs = true →
        (splitOnChar '-' cs).length = 2 →
        atoi ((splitOnChar '-' cs).getD 0 []) = some a →
        atoi ((splitOnChar '-' cs).getD 1 []) = none →
        parsePageRangeCore cs =
          PRResult.error ("invalid end page: " ++ listToString ((splitOnChar '-' cs).getD 1 []))) := by
  refine ⟨?_, ?_, ?_, ?_⟩
  · intro s1 s2 a b h1 h2 hc ha hb _hab
    have hne : s1 ++ '-' :: s2 ≠ [] := by cases s1 <;> simp
    have hct : containsC '-' (s1 ++ '-' :: s2) = true := containsC_mid _ _ _
    have hsp := splitOnChar_two_parts h1 h2
    simp [parsePageRangeCore, hne, hct, hsp, hc, ha, hb, rangeList_eq_ascendingSeq]
  · intro cs hct hlen
    have hne := containsC_ne_nil hct
    simp [parsePageRangeCore, hne, hct, hlen]
  · intro cs hct hlen h0
    have hne := containsC_ne_nil hct
    obtain ⟨p, q, hpq⟩ := list_length_two hlen
    rw [hpq] at h0
    simp only [List.getD_cons_zero] at h0
    simp [parsePageRangeCore, hne, hct, hpq, h0]
  · intro cs a hct hlen h0 h1
    have hne := containsC_ne_nil hct
    obtain ⟨p, q, hpq⟩ := list_length_two hlen
    rw [hpq] at h0 h1
    simp only [List.getD_cons_zero, List.getD_cons_succ] at h0 h1
    simp [parsePageRangeCore, hne, hct, hpq, h0, h1]

/-- C7 witness: the dash-expression "2-4" parses to [2, 3, 4]. -/
theorem c7_dash_expressions_witness : ParsePageRange "2-4" = PRResult.ok [2, 3, 4] := by
  show parsePageRangeCore "2-4".data = PRResult.ok [2, 3, 4]
  have hd : "2-4".data = ['2'] ++ '-' :: ['4'] := by decide
  rw [hd, c7_dash_expressions.1 ['2'] ['4'] 2 4 (by decide) (by decide) (by decide)
    (by decide) (by decide) (by decide)]
  decide

/-- C10: a non-empty input containing neither `-` nor `,` (such as a single
page number "5") parses to the empty sequence with no error, and the caller
expands an empty sequence to all pages `1..numPages`. -/
theorem c10_single_selector_ignored :
    (∀ cs : List Char, cs ≠ [] → containsC '-' cs = false → containsC ',' cs = false →
        parsePageRangeCore cs = PRResult.ok [])
    ∧ ∀ n : Nat, effectivePages [] n = ascendingSeq 1 n := by
  constructor
  · intro cs hne h1 h2
    simp [parsePageRangeCore, hne, h1, h2]
  · intro n
    simp [effectivePages, rangeList_eq_ascendingSeq]

/-- C10 witness: the single-page selector "5" is silently ignored and the
caller then selects every page of a 3-page document. -/
theorem c10_single_selector_ignored_witness :
    ParsePageRange "5" = PRResult.ok [] ∧ effectivePages [] 3 = [1, 2, 3] := by
  constructor
  · exact c10_single_selector_ignored.1 "5".data (by decide) (by decide) (by decide)
  · rw [c10_single_selector_ignored.2 3]
    decide

/-! ## Helper lemmas about the streaming loop -/

theorem streamRun_clean_front {α ε : Type} (sc : Nat) (fn : α → Option ε)
    (hsc : sc < 400) (pre : List (NDLine α)) :
    ∀ rest : List (NDLine α),
      (∀ l ∈ pre, l.errField = some "" ∧ fn l.payload = none) →
      streamRun sc fn (pre ++ rest) =
        ((streamRun sc fn rest).1, pre.map NDLine.payload ++ (streamRun sc fn rest).2) := by
  induction pre with
  | nil => intro rest _; simp
  | cons l t ih =>
    intro rest hclean
    have hl := hclean l (by simp)
    have ht : ∀ x ∈ t, x.errField = some "" ∧ fn x.payload = none := by
      intro x hx
      exact hclean x (by simp [hx])
    simp only [List.cons_append, streamRun, hl.1, hl.2]
    rw [if_neg (by simp), if_neg (by omega)]
    simp [ih rest ht]

/-! ## Claims about the streaming loop -/

/-- C3: when the scan loop reaches a line whose decoded `error` field is a
non-empty string (that line is first, or the status is below 400 and every
earlier line decoded cleanly and was accepted by the handler), the stream
returns that error text immediately — for any HTTP status code — and the
handler runs on exactly the earlier lines, never on the error line or any
later line. -/
theorem c3_error_field_aborts {α ε : Type} (sc : Nat) (fn : α → Option ε)
    (pre post : List (NDLine α)) (e : String) (x : α)
    (he : e ≠ "")
    (hclean : ∀ l ∈ pre, l.errField = some "" ∧ fn l.payload = none)
    (hreach : pre = [] ∨ sc < 400) :
    streamRun sc fn (pre ++ ⟨some e, x⟩ :: post) =
      (StreamResult.errorField e, pre.map NDLine.payload) := by
  have hhead : streamRun sc fn (⟨some e, x⟩ :: post) = (StreamResult.errorField e, []) := by
    simp [streamRun, he]
  rcases hreach with h | h
  · subst h
    simpa using hhead
  · rw [streamRun_clean_front sc fn h pre _ hclean, hhead]
    simp

/-- C3 witness: a stream whose first line carries `error = "quota exceeded"`
returns that error under status 500 without invoking the handler at all. -/
theorem c3_error_field_aborts_witness :
    streamRun 500 (fun _ : Nat => (none : Option Nat))
        [⟨some "quota exceeded", 0⟩, ⟨some "", 1⟩] =
      (StreamResult.errorField "quota exceeded", []) :=
  c3_error_field_aborts 500 (fun _ => none) [] [⟨some "", 1⟩] "quota exceeded" 0
    (by decide) (by simp) (Or.inl rfl)

/-- C4: with status below 400, a body of N cleanly-decoding lines none of
which carries an error field and all of which the handler accepts makes the
stream invoke the handler exactly once per line, in order, and return nil;
and if the handler rejects some line, the stream returns exactly that error,
has invoked the handler on the earlier lines and that line only, and reads
no further lines. -/
theorem c4_clean_stream {α ε : Type} :
    (∀ (sc : Nat) (fn : α → Option ε) (lines : List (NDLine α)), sc < 400 →
        (∀ l ∈ lines, l.errField = some "" ∧ fn l.payload = none) →
        streamRun sc fn lines = (StreamResult.ok, lines.map NDLine.payload))
    ∧ (∀ (sc : Nat) (fn : α → Option ε) (pre post : List (NDLine α)) (x : NDLine α) (e : ε),
        sc < 400 →
        (∀ l ∈ pre, l.errField = some "" ∧ fn l.payload = none) →
        x.errField = some "" → fn x.payload = some e →
        streamRun sc fn (pre ++ x :: post) =
          (StreamResult.handlerErr e, pre.map NDLine.payload ++ [x.payload])) := by
  constructor
  · intro sc fn lines hsc hclean
    have h := streamRun_clean_front sc fn hsc lines [] hclean
    have hnil : streamRun sc fn ([] : List (NDLine α)) = (StreamResult.ok, []) := rfl
    rw [hnil] at h
    simpa using h
  · intro sc fn pre post x e hsc hclean hx hfe
    have hhead : streamRun sc fn (x :: post) = (StreamResult.handlerErr e, [x.payload]) := by
      simp only [streamRun, hx, hfe]
      rw [if_neg (by simp), if_neg (by omega)]
    rw [streamRun_clean_front sc fn hsc pre _ hclean, hhead]

/-- C4 witness: three clean lines under status 200 invoke the handler three
times in order and the stream returns nil. -/
theorem c4_clean_stream_witness :
    streamRun 200 (fun _ : Nat => (none : Option Nat))
        [⟨some "", 10⟩, ⟨some "", 20⟩, ⟨some "", 30⟩] =
      (StreamResult.ok, [10, 20, 30]) :=
  c4_clean_stream.1 200 (fun _ => none) [⟨some "", 10⟩, ⟨some "", 20⟩, ⟨some "", 30⟩]
    (by decide) (by decide)

/-- C9: a response whose body contains zero lines makes the scan loop exit
immediately and `stream` return nil, even when the HTTP status is 400 or
above: the status is only checked per scanned line, so no `StatusError` is
ever constructed and the handler is never invoked. -/
theorem c9_error_status_empty_body {α ε : Type} (sc : Nat) (fn : α → Option ε)
    (hsc : 400 ≤ sc) :
    streamRun sc fn ([] : List (NDLine α)) = (StreamResult.ok, []) := rfl

/-- C9 witness: status 500 with an empty body returns nil. -/
theorem c9_error_status_empty_body_witness :
    streamRun 500 (fun _ : Nat => (none : Option Nat)) ([] : List (NDLine Nat)) =
      (StreamResult.ok, []) :=
  c9_error_status_empty_body 500 (fun _ => none) (by decide)

/-! ## Helper lemmas about the scheduler result slots -/

theorem length_setSlot (sl : List (Option Nat)) (i v : Nat) :
    (setSlot sl i v).length = sl.length := by
  induction sl generalizing i with
  | nil => simp [setSlot]
  | cons s t ih =>
    cases i with
    | zero => simp [setSlot]
    | succ j => simp [setSlot, ih]

theorem getSlot_setSlot_eq (sl : List (Option Nat)) (i v : Nat) (h : i < sl.length) :
    getSlot (setSlot sl i v) i = some v := by
  induction sl generalizing i with
  | nil => simp at h
  | cons s t ih =>
    cases i with
    | zero => simp [setSlot, getSlot]
    | succ j =>
      simp only [setSlot, getSlot]
      exact ih j (by simpa using h)

theorem getSlot_setSlot_ne (sl : List (Option Nat)) (i j v : Nat) (h : i ≠ j) :
    getSlot (setSlot sl i v) j = getSlot sl j := by
  induction sl generalizing i j with
  | nil => simp [setSlot]
  | cons s t ih =>
    cases i with
    | zero =>
      cases j with
      | zero => exact absurd rfl h
      | succ j' => simp [setSlot, getSlot]
    | succ i' =>
      cases j with
      | zero => simp [setSlot, getSlot]
      | succ j' =>
        simp only [setSlot, getSlot]
        exact ih i' j' (by omega)

theorem getSlot_some_lt {sl : List (Option Nat)} {i v : Nat}
    (h : getSlot sl i = some v) : i < sl.length := by
  induction sl generalizing i with
  | nil => simp [getSlot] at h
  | cons s t ih =>
    cases i with
    | zero => simp
    | succ j =>
      simp only [getSlot] at h
      have := ih h
      simpa using Nat.succ_lt_succ this

theorem length_scheduleStep (t : Nat) (ok : Nat → Bool) (sl : List (Option Nat)) (p : Nat) :
    (scheduleStep t ok sl p).length = sl.length := by
  unfold scheduleStep
  split
  · rfl
  · split
    · exact length_setSlot _ _ _
    · rfl

theorem length_scheduleFold (t : Nat) (ok : Nat → Bool) (req : List Nat) :
    ∀ sl : List (Option Nat), (req.foldl (scheduleStep t ok) sl).length = sl.length := by
  induction req with
  | nil => intro sl; rfl
  | cons q rest ih =>
    intro sl
    simp only [List.foldl_cons]
    rw [ih, length_scheduleStep]

theorem scheduleStep_preserve {t : Nat} {ok : Nat → Bool} {sl : List (Option Nat)} {q p : Nat}
    (hp : 1 ≤ p) (h : getSlot sl (p - 1) = some p) :
    getSlot (scheduleStep t ok sl q) (p - 1) = some p := by
  unfold scheduleStep
  split
  · exact h
  · split
    · rename_i hin _
      by_cases hqp : q = p
      · subst hqp
        exact getSlot_setSlot_eq _ _ _ (getSlot_some_lt h)
      · rw [getSlot_setSlot_ne _ _ _ _ (by omega)]
        exact h
    · exact h

theorem scheduleFold_preserve {t : Nat} {ok : Nat → Bool} {p : Nat} (hp : 1 ≤ p) :
    ∀ (req : List Nat) (sl : List (Option Nat)), getSlot sl (p - 1) = some p →
      getSlot (req.foldl (scheduleStep t ok) sl) (p - 1) = some p := by
  intro req
  induction req with
  | nil => intro sl h; exact h
  | cons q rest ih =>
    intro sl h
    simp only [List.foldl_cons]
    exact ih _ (scheduleStep_preserve hp h)

theorem scheduleFold_writes {t : Nat} {ok : Nat → Bool} {p : Nat}
    (hp : 1 ≤ p) (hpt : p ≤ t) (hok : ok p = true) :
    ∀ (req : List Nat) (sl : List (Option Nat)), sl.length = t → p ∈ req →
      getSlot (req.foldl (scheduleStep t ok) sl) (p - 1) = some p := by
  intro req
  induction req with
  | nil => intro sl _ hmem; simp at hmem
  | cons q rest ih =>
    intro sl hlen hmem
    rcases List.mem_cons.mp hmem with rfl | hmem'
    · simp only [List.foldl_cons]
      apply scheduleFold_preserve hp
      unfold scheduleStep
      rw [if_neg (by omega), if_pos hok]
      exact getSlot_setSlot_eq _ _ _ (by omega)
    · simp only [List.foldl_cons]
      exact ih _ (by rw [length_scheduleStep, hlen]) hmem'

/-! ## Claims about the scheduler -/

/-- C5: a requested page outside `[1, totalPages]` is skipped without
aborting the batch (the dispatch step leaves the slots untouched and the
fold continues), the result collection always has the fixed size
`totalPages`, a successfully rendered in-range page `p` ends up stored at
slot index `p - 1`, and with `totalPages = 5` and requested pages
`[1, 3, 7]` exactly the slots at indices 0 and 2 are non-empty. -/
theorem c5_scheduler_slots :
    (∀ (t : Nat) (ok : Nat → Bool) (sl : List (Option Nat)) (p : Nat),
        (p < 1 ∨ t < p) → scheduleStep t ok sl p = sl)
    ∧ (∀ (t : Nat) (req : List Nat) (ok : Nat → Bool), (schedule t req ok).length = t)
    ∧ (∀ (t : Nat) (req : List Nat) (ok : Nat → Bool) (p : Nat),
        p ∈ req → 1 ≤ p → p ≤ t → ok p = true →
        getSlot (schedule t req ok) (p - 1) = some p)
    ∧ schedule 5 [1, 3, 7] (fun _ => true) = [some 1, none, some 3, none, none] := by
  refine ⟨?_, ?_, ?_, by decide⟩
  · intro t ok sl p h
    unfold scheduleStep
    rw [if_pos h]
  · intro t req ok
    rw [schedule, length_scheduleFold]
    exact List.length_replicate _ _
  · intro t req ok p hmem hp hpt hok
    exact scheduleFold_writes hp hpt hok req _ (List.length_replicate _ _) hmem

/-- C5 witness: with 5 total pages and requested pages [1, 3, 7], rendered
page 3 sits at slot index 2. -/
theorem c5_scheduler_slots_witness :
    getSlot (schedule 5 [1, 3, 7] (fun _ => true)) 2 = some 3 :=
  c5_scheduler_slots.2.2.1 5 [1, 3, 7] (fun _ => true) 3 (by decide) (by decide)
    (by decide) (by decide)

/-! ## Claim about the persisted image path -/

/-- C6: the claim says both modes persist page N at
`<output>/<pdf-basename>/page_<N>.jpg`. The parallel branch does (it passes
`outDir`, the per-PDF subdirectory, to `RenderPdfPage`), but the sequential
branch passes the root `outputDir`, so it persists at
`<output>/page_<N>.jpg` instead: with output directory "out" and PDF base
name "doc", sequential page 2 lands at "out/page_2.jpg", not at the
specified "out/doc/page_2.jpg". -/
theorem c6_sequential_path_diverges :
    sequentialRenderPath "out" "doc" 2 = "out/page_2.jpg"
    ∧ parallelRenderPath "out" "doc" 2 = specPersistedImagePath "out" "doc" 2
    ∧ sequentialRenderPath "out" "doc" 2 ≠ specPersistedImagePath "out" "doc" 2 := by
  refine ⟨by decide, by decide, by decide⟩

/-! ## Claim about bounded concurrency -/

/-- C8: in parallel mode, every state reachable by the dispatch/finish
interleaving keeps the number of concurrently running render goroutines at
or below the admission-gate capacity 3; the number of dispatched renders
always equals running plus finished ones; and once the scheduler has
returned (past `wg.Wait()`), every dispatched render has signalled
completion. -/
theorem c8_bounded_concurrency :
    ∀ (t : Nat) (pages : List Nat) (s : SchedState), SchedReachable t pages s →
      s.running ≤ concurrencyLimit
      ∧ s.dispatched = s.running + s.completed
      ∧ (s.returned = true → s.running = 0 ∧ s.dispatched = s.completed) := by
  intro t pages s h
  induction h with
  | refl => exact ⟨by simp [concurrencyLimit], rfl, by simp⟩
  | tail _hsteps hstep ih =>
    cases hstep with
    | skip hout => exact ⟨ih.1, ih.2.1, by simp⟩
    | dispatch hin hlt =>
      refine ⟨?_, ?_, by simp⟩
      · exact hlt
      · have := ih.2.1
        dsimp only at this ⊢
        omega
    | finish =>
      refine ⟨?_, ?_, by simp⟩
      · have := ih.1
        dsimp only at this ⊢
        omega
      · have := ih.2.1
        dsimp only at this ⊢
        omega
    | ret =>
      refine ⟨by simp [concurrencyLimit], ?_, ?_⟩
      · have := ih.2.1
        dsimp only at this ⊢
        omega
      · intro _
        have := ih.2.1
        dsimp only at this ⊢
        omega

/-- C8 witness: a full interleaving over pages [1, 2] with gate capacity 3
(dispatch both, finish both, then return) satisfies the invariant in its
final, returned state. -/
theorem c8_bounded_concurrency_witness :
    (⟨[], 0, 2, 2, true⟩ : SchedState).running ≤ concurrencyLimit
    ∧ (⟨[], 0, 2, 2, true⟩ : SchedState).dispatched =
        (⟨[], 0, 2, 2, true⟩ : SchedState).running + (⟨[], 0, 2, 2, true⟩ : SchedState).completed
    ∧ ((⟨[], 0, 2, 2, true⟩ : SchedState).returned = true →
        (⟨[], 0, 2, 2, true⟩ : SchedState).running = 0
        ∧ (⟨[], 0, 2, 2, true⟩ : SchedState).dispatched =
            (⟨[], 0, 2, 2, true⟩ : SchedState).completed) := by
  apply c8_bounded_concurrency 5 [1, 2]
  have s1 : SchedStep 5 ⟨[1, 2], 0, 0, 0, false⟩ ⟨[2], 1, 1, 0, false⟩ :=
    SchedStep.dispatch (by decide) (by decide)
  have s2 : SchedStep 5 ⟨[2], 1, 1, 0, false⟩ ⟨[], 2, 2, 0, false⟩ :=
    SchedStep.dispatch (by decide) (by decide)
  have s3 : SchedStep 5 ⟨[], 2, 2, 0, false⟩ ⟨[], 1, 2, 1, false⟩ :=
    SchedStep.finish
  have s4 : SchedStep 5 ⟨[], 1, 2, 1, false⟩ ⟨[], 0, 2, 2, false⟩ :=
    SchedStep.finish
  have s5 : SchedStep 5 ⟨[], 0, 2, 2, false⟩ ⟨[], 0, 2, 2, true⟩ :=
    SchedStep.ret
  exact ((((Relation.ReflTransGen.refl.tail s1).tail s2).tail s3).tail s4).tail s5

end UniAI
